import Mathlib

/-
Verification of the jumpserver account / asset serializer logic.

The development shallowly embeds the relevant Python functions of
  src/apps/accounts/serializers/account/account.py
  src/apps/assets/serializers/asset/common.py
  src/apps/assets/serializers/platform.py
into Lean.  Python dictionaries become insertion ordered association
lists (Dict below), Python values that flow through those dictionaries
become the Value sum type, the Django object store becomes an explicit
DB record threaded through each operation, and exceptions become Except.
-/

namespace JmsSpec

/-- Value models a Python value stored in a request or record dictionary:
None, a string, a non negative integer (ids, ports), or a boolean. -/
inductive Value where
  | vnull : Value
  | vstr : String → Value
  | vnat : Nat → Value
  | vbool : Bool → Value
deriving Repr, DecidableEq

/-- truthy models Python truthiness for Value: None, empty string, zero and
False are falsy, everything else is truthy. -/
def Value.truthy : Value → Bool
  | .vnull => false
  | .vstr s => !s.isEmpty
  | .vnat n => n != 0
  | .vbool b => b

/-- pyStr models the Python str() conversion for the Value type. -/
def Value.pyStr : Value → String
  | .vnull => "None"
  | .vstr s => s
  | .vnat n => toString n
  | .vbool true => "True"
  | .vbool false => "False"

/-- withSuffix appends a separator plus a suffix to a string Value, as the
Python expressions name + sep + token do; a non string value is returned
unchanged (Python would raise a TypeError there, a case the serializers
never reach because usernames and names are strings). -/
def Value.withSuffix (v : Value) (sep suffix : String) : Value :=
  match v with
  | .vstr s => .vstr (s ++ sep ++ suffix)
  | x => x

/-- Dict models a Python dict as an insertion ordered association list. -/
abbrev Dict (κ β : Type) : Type := List (κ × β)

namespace Dict

variable {κ β : Type} [DecidableEq κ]

/-- get? models d.get(k): the value stored at the first (hence, for dicts
built by the operations below, unique) occurrence of the key. -/
def get? : Dict κ β → κ → Option β
  | [], _ => none
  | p :: ps, k => if p.1 = k then some p.2 else get? ps k

/-- getD models d.get(k, v0). -/
def getD (d : Dict κ β) (k : κ) (v₀ : β) : β :=
  (get? d k).getD v₀

/-- contains models the Python expression k in d. -/
def contains (d : Dict κ β) (k : κ) : Bool :=
  (get? d k).isSome

/-- insert models the Python assignment d[k] = v: an existing key keeps its
position and is overwritten, a new key is appended at the end. -/
def insert (d : Dict κ β) (k : κ) (v : β) : Dict κ β :=
  if contains d k then d.map (fun p => if p.1 = k then (k, v) else p)
  else d ++ [(k, v)]

/-- erase models d.pop(k, default) as far as the remaining dictionary is
concerned: every pair with the key is removed. -/
def erase (d : Dict κ β) (k : κ) : Dict κ β :=
  d.filter (fun p => p.1 != k)

/-- update models d.update(other): the pairs of the second dictionary are
assigned into the first, in order. -/
def update (d other : Dict κ β) : Dict κ β :=
  other.foldl (fun acc p => insert acc p.1 p.2) d

/-- keys models list(d.keys()). -/
def keys (d : Dict κ β) : List κ := d.map (·.1)

/-- values models list(d.values()). -/
def values (d : Dict κ β) : List β := d.map (·.2)

end Dict

/-- lastWith returns the last element of the list satisfying the predicate;
it expresses the last occurrence wins semantics of repeated dictionary
assignments. -/
def lastWith {α : Type} (p : α → Bool) : List α → Option α
  | [] => none
  | x :: xs =>
    match lastWith p xs with
    | some y => some y
    | none => if p x then some x else none

/-- optOr is the plain first-some choice on options, used to state how a
chain of dictionary assignments shadows earlier bindings. -/
def optOr {α : Type} (a b : Option α) : Option α :=
  match a with
  | some x => some x
  | none => b

section DictLemmas

variable {κ β : Type} [DecidableEq κ]

@[simp]
theorem optOr_none_left {α : Type} (b : Option α) : optOr none b = b := rfl

@[simp]
theorem optOr_some_left {α : Type} (x : α) (b : Option α) :
    optOr (some x) b = some x := rfl

@[simp]
theorem optOr_none_right {α : Type} (a : Option α) : optOr a none = a := by
  cases a <;> rfl

@[simp]
theorem lastWith_nil {α : Type} (p : α → Bool) : lastWith p [] = none := rfl

theorem lastWith_eq_none_iff {α : Type} (p : α → Bool) (l : List α) :
    lastWith p l = none ↔ ∀ x ∈ l, p x = false := by
  induction l with
  | nil => simp
  | cons x xs ih =>
    simp only [lastWith]
    cases h : lastWith p xs with
    | some y =>
      have : ¬ ∀ z ∈ x :: xs, p z = false := by
        intro hall
        have : ∀ z ∈ xs, p z = false := fun z hz => hall z (List.mem_cons_of_mem _ hz)
        rw [ih.mpr this] at h
        exact Option.noConfusion h
      simp only [this, iff_false]
      exact fun hc => Option.noConfusion hc
    | none =>
      have hxs := ih.mp h
      by_cases hp : p x = true
      · simp only [if_pos hp]
        constructor
        · intro hc; exact absurd hc (by simp)
        · intro hall
          have := hall x (List.mem_cons_self _ _)
          rw [hp] at this
          exact absurd this (by simp)
      · simp only [if_neg hp]
        constructor
        · intro _ z hz
          rcases List.mem_cons.mp hz with rfl | hz
          · exact Bool.eq_false_iff.mpr hp
          · exact hxs z hz
        · intro _; trivial

theorem lastWith_mem {α : Type} (p : α → Bool) (l : List α) (x : α)
    (h : lastWith p l = some x) : x ∈ l ∧ p x = true := by
  induction l with
  | nil => exact absurd h (by simp)
  | cons y ys ih =>
    simp only [lastWith] at h
    cases hys : lastWith p ys with
    | some z =>
      rw [hys] at h
      obtain rfl : z = x := by injection h
      obtain ⟨hm, hp⟩ := ih hys
      exact ⟨List.mem_cons_of_mem _ hm, hp⟩
    | none =>
      rw [hys] at h
      by_cases hp : p y = true
      · rw [if_pos hp] at h
        obtain rfl : y = x := by injection h
        exact ⟨List.mem_cons_self _ _, hp⟩
      · rw [if_neg hp] at h
        exact absurd h (by simp)

@[simp]
theorem Dict.get?_nil (k : κ) : Dict.get? ([] : Dict κ β) k = none := rfl

@[simp]
theorem Dict.get?_cons (p : κ × β) (ps : Dict κ β) (k : κ) :
    Dict.get? (p :: ps) k = if p.1 = k then some p.2 else Dict.get? ps k := rfl

theorem Dict.get?_append (d d' : Dict κ β) (k : κ) :
    Dict.get? (d ++ d') k = optOr (Dict.get? d k) (Dict.get? d' k) := by
  induction d with
  | nil => simp
  | cons p ps ih =>
    by_cases hp : p.1 = k
    · simp [hp]
    · simpa [hp] using ih

theorem Dict.get?_map_overwrite (d : Dict κ β) (k k' : κ) (v : β) :
    Dict.get? (d.map (fun p => if p.1 = k then (k, v) else p)) k' =
      if k = k' then (Dict.get? d k).map (fun _ => v) else Dict.get? d k' := by
  induction d with
  | nil => simp
  | cons p ps ih =>
    simp only [List.map_cons, Dict.get?_cons]
    by_cases hk : k = k'
    · subst hk
      by_cases hp : p.1 = k <;> simp [hp, ih]
    · by_cases hp : p.1 = k
      · by_cases hpk : p.1 = k'
        · exact absurd (hp.symm.trans hpk) hk
        · simp [hp, hpk, hk, ih]
      · by_cases hpk : p.1 = k'
        · simp [hp, hpk, hk, show ¬ k' = k from fun hc => hk (Eq.symm hc)]
        · simp [hp, hpk, hk, ih]

theorem Dict.get?_insert_self (d : Dict κ β) (k : κ) (v : β) :
    Dict.get? (Dict.insert d k v) k = some v := by
  unfold Dict.insert
  by_cases h : Dict.contains d k
  · rw [if_pos h, Dict.get?_map_overwrite, if_pos rfl]
    unfold Dict.contains at h
    cases hg : Dict.get? d k with
    | none => rw [hg] at h; exact absurd h (by simp)
    | some w => simp
  · rw [if_neg h, Dict.get?_append]
    unfold Dict.contains at h
    cases hg : Dict.get? d k with
    | none => simp
    | some w => rw [hg] at h; exact absurd (by simp) h

theorem Dict.get?_insert_ne (d : Dict κ β) (k k' : κ) (v : β) (hne : k' ≠ k) :
    Dict.get? (Dict.insert d k v) k' = Dict.get? d k' := by
  unfold Dict.insert
  by_cases h : Dict.contains d k
  · rw [if_pos h, Dict.get?_map_overwrite,
      if_neg (show ¬ k = k' from fun hc => hne (Eq.symm hc))]
  · rw [if_neg h, Dict.get?_append]
    have hnone : Dict.get? [(k, v)] k' = none := by
      rw [Dict.get?_cons,
        if_neg (show ¬ ((k, v) : κ × β).1 = k' from fun hc => hne (Eq.symm hc))]
      rfl
    rw [hnone]
    simp

theorem Dict.get?_erase_self (d : Dict κ β) (k : κ) :
    Dict.get? (Dict.erase d k) k = none := by
  induction d with
  | nil => rfl
  | cons p ps ih =>
    unfold Dict.erase at *
    rw [List.filter_cons]
    by_cases hp : p.1 = k
    · rw [if_neg (by simp [hp] : ¬ (p.1 != k) = true)]
      exact ih
    · rw [if_pos (by simpa [bne_iff_ne] using hp), Dict.get?_cons, if_neg hp]
      exact ih

theorem Dict.get?_erase_ne (d : Dict κ β) (k k' : κ) (hne : k' ≠ k) :
    Dict.get? (Dict.erase d k) k' = Dict.get? d k' := by
  induction d with
  | nil => rfl
  | cons p ps ih =>
    unfold Dict.erase at *
    rw [List.filter_cons]
    by_cases hp : p.1 = k
    · rw [if_neg (by simp [hp] : ¬ (p.1 != k) = true), Dict.get?_cons,
        if_neg (show ¬ p.1 = k' from hp ▸ fun hc => hne (Eq.symm hc))]
      exact ih
    · rw [if_pos (by simpa [bne_iff_ne] using hp), Dict.get?_cons, Dict.get?_cons]
      by_cases hpk : p.1 = k'
      · rw [if_pos hpk, if_pos hpk]
      · rw [if_neg hpk, if_neg hpk]
        exact ih

theorem Dict.get?_foldl_insert {α : Type} (key : α → κ) (val : α → β)
    (l : List α) (m : Dict κ β) (k : κ) :
    Dict.get? (l.foldl (fun acc x => Dict.insert acc (key x) (val x)) m) k =
      optOr ((lastWith (fun x => key x == k) l).map val) (Dict.get? m k) := by
  induction l generalizing m with
  | nil => simp
  | cons x xs ih =>
    simp only [List.foldl_cons, ih, lastWith]
    cases h : lastWith (fun x => key x == k) xs with
    | some y => simp
    | none =>
      simp only [Option.map_none, optOr_none_left]
      by_cases hk : key x = k
      · subst hk
        simp [Dict.get?_insert_self]
      · rw [Dict.get?_insert_ne _ _ _ _ (fun hc => hk hc.symm)]
        simp [hk]

theorem Dict.get?_update (d other : Dict κ β) (k : κ) :
    Dict.get? (Dict.update d other) k =
      optOr ((lastWith (fun p => p.1 == k) other).map (·.2)) (Dict.get? d k) := by
  unfold Dict.update
  exact Dict.get?_foldl_insert (·.1) (·.2) other d k

theorem Dict.get?_eq_none_iff (d : Dict κ β) (k : κ) :
    Dict.get? d k = none ↔ k ∉ Dict.keys d := by
  induction d with
  | nil => simp [Dict.keys]
  | cons p ps ih =>
    rw [Dict.get?_cons]
    unfold Dict.keys at *
    simp only [List.map_cons, List.mem_cons]
    by_cases hp : p.1 = k
    · rw [if_pos hp]
      constructor
      · intro hc; exact absurd hc (by simp)
      · intro hc; exact absurd (Or.inl hp.symm) hc
    · rw [if_neg hp, ih]
      constructor
      · intro hnm hc
        rcases hc with hc | hc
        · exact hp hc.symm
        · exact hnm hc
      · intro hc hm; exact hc (Or.inr hm)

theorem Dict.mem_keys_of_get? (d : Dict κ β) (k : κ) (v : β)
    (h : Dict.get? d k = some v) : k ∈ Dict.keys d := by
  by_contra hc
  rw [← Dict.get?_eq_none_iff] at hc
  rw [h] at hc
  exact Option.noConfusion hc

theorem Dict.contains_iff_mem_keys (d : Dict κ β) (k : κ) :
    Dict.contains d k = true ↔ k ∈ Dict.keys d := by
  unfold Dict.contains
  cases hg : Dict.get? d k with
  | none =>
    simp only [Option.isSome_none, Bool.false_eq_true, false_iff]
    exact (Dict.get?_eq_none_iff d k).mp hg
  | some v =>
    simp only [Option.isSome_some, true_iff]
    exact Dict.mem_keys_of_get? d k v hg

theorem Dict.mem_insert (d : Dict κ β) (k : κ) (v : β) (q : κ × β)
    (h : q ∈ Dict.insert d k v) : q ∈ d ∨ q = (k, v) := by
  unfold Dict.insert at h
  by_cases hc : Dict.contains d k
  · rw [if_pos hc] at h
    obtain ⟨p, hp, hq⟩ := List.mem_map.mp h
    by_cases hk : p.1 = k
    · right; rw [← hq, if_pos hk]
    · left; rw [← hq, if_neg hk]; exact hp
  · rw [if_neg hc] at h
    rcases List.mem_append.mp h with h | h
    · exact Or.inl h
    · right; simpa using h

theorem Dict.keys_insert_of_contains (d : Dict κ β) (k : κ) (v : β)
    (h : Dict.contains d k = true) :
    Dict.keys (Dict.insert d k v) = Dict.keys d := by
  unfold Dict.insert Dict.keys
  rw [if_pos h, List.map_map]
  apply List.map_congr_left
  intro p _
  by_cases hp : p.1 = k
  · simp [hp]
  · simp [hp]

theorem Dict.keys_insert_of_not_contains (d : Dict κ β) (k : κ) (v : β)
    (h : Dict.contains d k = false) :
    Dict.keys (Dict.insert d k v) = Dict.keys d ++ [k] := by
  unfold Dict.insert Dict.keys
  rw [if_neg (by rw [h]; exact Bool.false_ne_true)]
  simp

theorem Dict.keys_foldl_insert {α : Type} (key : α → κ) (val : α → β)
    (l : List α) (m : Dict κ β) :
    Dict.keys (l.foldl (fun acc x => Dict.insert acc (key x) (val x)) m) =
      (l.map key).foldl (fun acc k => if k ∈ acc then acc else acc ++ [k])
        (Dict.keys m) := by
  induction l generalizing m with
  | nil => rfl
  | cons x xs ih =>
    rw [List.foldl_cons, ih, List.map_cons, List.foldl_cons]
    by_cases hc : Dict.contains m (key x)
    · rw [Dict.keys_insert_of_contains _ _ _ hc,
        if_pos ((Dict.contains_iff_mem_keys m (key x)).mp hc)]
    · rw [Dict.keys_insert_of_not_contains _ _ _ (Bool.eq_false_iff.mpr hc),
        if_neg (fun hm => hc ((Dict.contains_iff_mem_keys m (key x)).mpr hm))]

theorem Dict.foldl_insert_pair (key : α → κ) (val : α → β)
    (l : List α) (m : Dict κ β) (q : κ × β)
    (hq : q ∈ l.foldl (fun acc x => Dict.insert acc (key x) (val x)) m) :
    q ∈ m ∨ ∃ x ∈ l, q = (key x, val x) := by
  induction l generalizing m with
  | nil => exact Or.inl hq
  | cons x xs ih =>
    rw [List.foldl_cons] at hq
    rcases ih (Dict.insert m (key x) (val x)) hq with hm | ⟨y, hy, hqy⟩
    · rcases Dict.mem_insert m (key x) (val x) q hm with hm | hkv
      · exact Or.inl hm
      · exact Or.inr ⟨x, List.mem_cons_self _ _, hkv⟩
    · exact Or.inr ⟨y, List.mem_cons_of_mem _ hy, hqy⟩

theorem Dict.foldl_insert_fresh {α : Type} (key : α → κ) (val : α → β)
    (l : List α) (m : Dict κ β)
    (hdisj : ∀ x ∈ l, Dict.contains m (key x) = false)
    (hnd : (l.map key).Nodup) :
    l.foldl (fun acc x => Dict.insert acc (key x) (val x)) m =
      m ++ l.map (fun x => (key x, val x)) := by
  induction l generalizing m with
  | nil => simp
  | cons x xs ih =>
    rw [List.foldl_cons]
    have hx : Dict.insert m (key x) (val x) = m ++ [(key x, val x)] := by
      unfold Dict.insert
      rw [if_neg (by rw [hdisj x (List.mem_cons_self _ _)]; exact Bool.false_ne_true)]
    rw [hx]
    rw [List.map_cons, List.nodup_cons] at hnd
    have hdisj' : ∀ y ∈ xs, Dict.contains (m ++ [(key x, val x)]) (key y) = false := by
      intro y hy
      unfold Dict.contains
      rw [Dict.get?_append]
      have h1 : Dict.get? m (key y) = none := by
        have := hdisj y (List.mem_cons_of_mem _ hy)
        unfold Dict.contains at this
        cases hg : Dict.get? m (key y) with
        | none => rfl
        | some w => rw [hg] at this; exact absurd this (by simp)
      have h2 : Dict.get? [(key x, val x)] (key y) = none := by
        rw [Dict.get?_cons,
          if_neg (show ¬ ((key x, val x) : κ × β).1 = key y from fun hc =>
            hnd.1 ((show key x = key y from hc) ▸ List.mem_map_of_mem key hy))]
        rfl
      rw [h1, h2]
      rfl
    rw [ih _ hdisj' hnd.2, List.append_assoc]
    rfl

theorem Dict.exists_get?_of_mem_values (d : Dict κ β)
    (hnd : (Dict.keys d).Nodup) (v : β) (hv : v ∈ Dict.values d) :
    ∃ k, Dict.get? d k = some v := by
  induction d with
  | nil => exact absurd hv (by simp [Dict.values])
  | cons p ps ih =>
    unfold Dict.values at hv
    unfold Dict.keys at hnd
    simp only [List.map_cons, List.mem_cons] at hv
    simp only [List.map_cons, List.nodup_cons] at hnd
    rcases hv with hv | hv
    · exact ⟨p.1, by simp [hv]⟩
    · obtain ⟨k, hk⟩ := ih hnd.2 hv
      refine ⟨k, ?_⟩
      have hkps : k ∈ Dict.keys ps := Dict.mem_keys_of_get? ps k v hk
      have : ¬ p.1 = k := fun hc => hnd.1 (hc ▸ hkps)
      simp [this, hk]

theorem Dict.mem_erase (d : Dict κ β) (k : κ) (q : κ × β)
    (h : q ∈ Dict.erase d k) : q ∈ d ∧ q.1 ≠ k := by
  unfold Dict.erase at h
  have := List.mem_filter.mp h
  exact ⟨this.1, by simpa [bne_iff_ne] using this.2⟩

theorem Dict.contains_insert_self (d : Dict κ β) (k : κ) (v : β) :
    Dict.contains (Dict.insert d k v) k = true := by
  unfold Dict.contains
  rw [Dict.get?_insert_self]
  rfl

theorem Dict.contains_insert_of_contains (d : Dict κ β) (k k' : κ) (v : β)
    (h : Dict.contains d k' = true) :
    Dict.contains (Dict.insert d k v) k' = true := by
  by_cases hk : k' = k
  · subst hk; exact Dict.contains_insert_self d k' v
  · unfold Dict.contains at *
    rw [Dict.get?_insert_ne d k k' v hk]
    exact h

theorem Dict.exists_pair_of_contains (d : Dict κ β) (k : κ)
    (h : Dict.contains d k = true) : ∃ w, (k, w) ∈ d := by
  induction d with
  | nil => exact absurd h (by simp [Dict.contains])
  | cons p ps ih =>
    unfold Dict.contains at h
    rw [Dict.get?_cons] at h
    by_cases hp : p.1 = k
    · refine ⟨p.2, ?_⟩
      have : p = (k, p.2) := by
        cases p with
        | mk a b => simp only at hp; rw [hp]
      rw [← this]
      exact List.mem_cons_self _ _
    · rw [if_neg hp] at h
      obtain ⟨w, hw⟩ := ih h
      exact ⟨w, List.mem_cons_of_mem _ hw⟩

theorem Dict.self_mem_insert (d : Dict κ β) (k : κ) (v : β) :
    (k, v) ∈ Dict.insert d k v := by
  unfold Dict.insert
  by_cases hc : Dict.contains d k
  · rw [if_pos hc]
    obtain ⟨w, hw⟩ := Dict.exists_pair_of_contains d k hc
    exact List.mem_map.mpr ⟨(k, w), hw, by simp⟩
  · rw [if_neg hc]
    exact List.mem_append.mpr (Or.inr (by simp))

theorem Dict.mem_insert_key (d : Dict κ β) (k : κ) (v : β) (q : κ × β)
    (hq : q ∈ Dict.insert d k v) (hk : q.1 = k) : q = (k, v) := by
  unfold Dict.insert at hq
  by_cases hc : Dict.contains d k
  · rw [if_pos hc] at hq
    obtain ⟨p, hp, hfp⟩ := List.mem_map.mp hq
    by_cases hpk : p.1 = k
    · rw [if_pos hpk] at hfp; exact hfp.symm
    · rw [if_neg hpk] at hfp
      rw [← hfp] at hk
      exact absurd hk hpk
  · rw [if_neg hc] at hq
    rcases List.mem_append.mp hq with hq | hq
    · exfalso
      apply hc
      rw [Dict.contains_iff_mem_keys]
      rw [← hk]
      exact List.mem_map_of_mem _ hq
    · simpa using hq

theorem lastWith_isSome_of_exists {α : Type} (p : α → Bool) (l : List α)
    (x : α) (hx : x ∈ l) (hp : p x = true) : ∃ y, lastWith p l = some y := by
  cases h : lastWith p l with
  | none =>
    have := (lastWith_eq_none_iff p l).mp h x hx
    rw [hp] at this
    exact absurd this (by simp)
  | some y => exact ⟨y, rfl⟩

theorem lastWith_insert_key (d : Dict κ β) (k : κ) (v : β) :
    lastWith (fun p => p.1 == k) (Dict.insert d k v) = some (k, v) := by
  obtain ⟨y, hy⟩ := lastWith_isSome_of_exists (fun p => p.1 == k)
    (Dict.insert d k v) (k, v) (Dict.self_mem_insert d k v) (by simp)
  obtain ⟨hmem, hpy⟩ := lastWith_mem _ _ _ hy
  rw [hy]
  rw [Dict.mem_insert_key d k v y hmem (by simpa using hpy)]

end DictLemmas

/-- firstSeen keeps the first occurrence of each element of a list, in
order; it is exactly the key iteration order of a Python dict built by
assigning every list element in turn. -/
def firstSeen {κ : Type} [DecidableEq κ] (l : List κ) : List κ :=
  l.foldl (fun acc k => if k ∈ acc then acc else acc ++ [k]) []

section FirstSeenLemmas

variable {κ : Type} [DecidableEq κ]

theorem firstSeen_foldl_nodup (l : List κ) (acc : List κ) (h : acc.Nodup) :
    (l.foldl (fun acc k => if k ∈ acc then acc else acc ++ [k]) acc).Nodup := by
  induction l generalizing acc with
  | nil => exact h
  | cons x xs ih =>
    rw [List.foldl_cons]
    by_cases hx : x ∈ acc
    · rw [if_pos hx]; exact ih acc h
    · rw [if_neg hx]
      exact ih _ (by simp [List.nodup_append, h, hx])

theorem firstSeen_nodup (l : List κ) : (firstSeen l).Nodup :=
  firstSeen_foldl_nodup l [] List.nodup_nil

theorem firstSeen_foldl_mem (l : List κ) (acc : List κ) (k : κ) :
    k ∈ l.foldl (fun acc k => if k ∈ acc then acc else acc ++ [k]) acc ↔
      k ∈ acc ∨ k ∈ l := by
  induction l generalizing acc with
  | nil => simp
  | cons x xs ih =>
    rw [List.foldl_cons]
    by_cases hx : x ∈ acc
    · rw [if_pos hx, ih]
      constructor
      · rintro (h | h)
        · exact Or.inl h
        · exact Or.inr (List.mem_cons_of_mem _ h)
      · rintro (h | h)
        · exact Or.inl h
        · rcases List.mem_cons.mp h with rfl | h
          · exact Or.inl hx
          · exact Or.inr h
    · rw [if_neg hx, ih]
      constructor
      · rintro (h | h)
        · rcases List.mem_append.mp h with h | h
          · exact Or.inl h
          · exact Or.inr (List.mem_cons.mpr (Or.inl (by simpa using h)))
        · exact Or.inr (List.mem_cons_of_mem _ h)
      · rintro (h | h)
        · exact Or.inl (List.mem_append.mpr (Or.inl h))
        · rcases List.mem_cons.mp h with rfl | h
          · exact Or.inl (List.mem_append.mpr (Or.inr (by simp)))
          · exact Or.inr h

theorem firstSeen_mem (l : List κ) (k : κ) : k ∈ firstSeen l ↔ k ∈ l := by
  unfold firstSeen
  rw [firstSeen_foldl_mem]
  simp

end FirstSeenLemmas

/-- insertSorted places an element into a list right before the first
element whose key is not smaller; folded from the right over a list it
yields exactly the stable ascending sort that the Python builtin sorted
performs. -/
def insertSorted {α : Type} (key : α → Nat) (x : α) : List α → List α
  | [] => [x]
  | y :: ys => if key x ≤ key y then x :: y :: ys else y :: insertSorted key x ys

/-- sortByKey is a stable ascending sort by a numeric key, the behaviour of
sorted(results, key=...) in Python. -/
def sortByKey {α : Type} (key : α → Nat) (l : List α) : List α :=
  l.foldr (insertSorted key) []

section SortLemmas

variable {α : Type} (key : α → Nat)

theorem mem_insertSorted (x : α) (l : List α) (z : α) :
    z ∈ insertSorted key x l ↔ z = x ∨ z ∈ l := by
  induction l with
  | nil => simp [insertSorted]
  | cons y ys ih =>
    unfold insertSorted
    by_cases h : key x ≤ key y
    · rw [if_pos h]; simp
    · rw [if_neg h]
      simp only [List.mem_cons, ih]
      tauto

theorem sorted_insertSorted (x : α) (l : List α)
    (h : l.Sorted (fun a b => key a ≤ key b)) :
    (insertSorted key x l).Sorted (fun a b => key a ≤ key b) := by
  induction l with
  | nil => simp [insertSorted]
  | cons y ys ih =>
    rw [List.sorted_cons] at h
    unfold insertSorted
    by_cases hxy : key x ≤ key y
    · rw [if_pos hxy, List.sorted_cons]
      refine ⟨?_, List.sorted_cons.mpr h⟩
      intro b hb
      rcases List.mem_cons.mp hb with rfl | hb
      · exact hxy
      · exact le_trans hxy (h.1 b hb)
    · rw [if_neg hxy, List.sorted_cons]
      refine ⟨?_, ih h.2⟩
      intro b hb
      rcases (mem_insertSorted key x ys b).mp hb with rfl | hb
      · exact le_of_lt (lt_of_not_le hxy)
      · exact h.1 b hb

theorem sorted_sortByKey (l : List α) :
    (sortByKey key l).Sorted (fun a b => key a ≤ key b) := by
  induction l with
  | nil => simp [sortByKey]
  | cons x xs ih => exact sorted_insertSorted key x _ ih

theorem filter_insertSorted (x : α) (l : List α) (n : Nat) :
    (insertSorted key x l).filter (fun a => key a == n) =
      if key x = n then x :: l.filter (fun a => key a == n)
      else l.filter (fun a => key a == n) := by
  induction l with
  | nil =>
    unfold insertSorted
    by_cases hx : key x = n <;> simp [List.filter_cons, hx]
  | cons y ys ih =>
    unfold insertSorted
    by_cases hxy : key x ≤ key y
    · rw [if_pos hxy]
      by_cases hx : key x = n <;> simp [List.filter_cons, hx]
    · rw [if_neg hxy]
      rw [List.filter_cons, List.filter_cons, ih]
      by_cases hy : key y = n
      · have hx : ¬ key x = n := by
          intro hc
          exact hxy (le_of_eq (hy ▸ hc : key x = key y))
        simp [hx, hy]
      · by_cases hx : key x = n <;> simp [hx, hy]

theorem filter_sortByKey (l : List α) (n : Nat) :
    (sortByKey key l).filter (fun a => key a == n) =
      l.filter (fun a => key a == n) := by
  induction l with
  | nil => rfl
  | cons x xs ih =>
    show (insertSorted key x (sortByKey key xs)).filter _ = _
    rw [filter_insertSorted, List.filter_cons]
    by_cases hx : key x = n
    · rw [if_pos hx, ih, if_pos (by simpa using hx)]
    · rw [if_neg hx, ih, if_neg (by simpa using hx)]

end SortLemmas

/-- Vd is a validated or initial data dictionary of a serializer. -/
abbrev Vd : Type := Dict String Value

/-- Account models a row of the accounts_account table: a numeric primary
key plus the stored column values as a dictionary, which lets the setattr
loops of the serializers be expressed directly. -/
structure Account where
  id : Nat
  fields : Vd
deriving Repr, DecidableEq

/-- attr models getattr(account, k), with missing columns reading as None. -/
def Account.attr (a : Account) (k : String) : Value :=
  (Dict.get? a.fields k).getD .vnull

/-- DB models the Django object store for accounts: the stored rows plus a
fresh primary key counter. -/
structure DB where
  accounts : List Account
  nextId : Nat
deriving Repr, DecidableEq

/-- createAccount models Account.objects.create(**fields). -/
def DB.createAccount (db : DB) (fields : Vd) : DB × Account :=
  let a : Account := ⟨db.nextId, fields⟩
  ({ accounts := db.accounts ++ [a], nextId := db.nextId + 1 }, a)

/-- save models instance.save(): the row with the same primary key is
replaced. -/
def DB.save (db : DB) (a : Account) : DB :=
  { db with accounts := db.accounts.map (fun b => if b.id = a.id then a else b) }

/-- AccountTemplate models a row of the account template table: its id and
the named field values of the record, in declared field order, with vnull
standing for a NULL column. -/
structure AccountTemplate where
  id : String
  metaFields : Vd
deriving Repr, DecidableEq

/-- template_ignore_fields is the ignore_fields list of
AccountCreateUpdateSerializerMixin.from_template_if_need
(account.py line 94). -/
def template_ignore_fields : List String :=
  ["id", "date_created", "date_updated", "org_id"]

/-- template_attrs is the attrs dictionary built at account.py lines 95
to 104: every non ignored field of the template whose value is not None,
in declared field order. -/
def template_attrs (t : AccountTemplate) : Vd :=
  t.metaFields.filter
    (fun p => !(template_ignore_fields.contains p.1) && !(p.2 == Value.vnull))

/-- from_template_if_need embeds
AccountCreateUpdateSerializerMixin.from_template_if_need (account.py lines
77 to 105): the template key is popped from the incoming data; a falsy
template id leaves the data alone; an unknown id fails; otherwise the
non null template fields are assigned into the incoming data with
initial_data.update(attrs). -/
def from_template_if_need (templates : List AccountTemplate)
    (initial_data : Vd) : Except String Vd :=
  let template_id := Dict.getD initial_data "template" Value.vnull
  let data := Dict.erase initial_data "template"
  if !template_id.truthy then .ok data
  else
    match templates.find? (fun t => Value.vstr t.id == template_id) with
    | none => .error "Template not found"
    | some t => .ok (Dict.update data (template_attrs t))

/-- set_uniq_name_if_need embeds
AccountCreateUpdateSerializerMixin.set_uniq_name_if_need (account.py lines
65 to 75).  The random uuid4 hex fragment is passed in as the suffix
argument; instName is the name of self.instance when one exists. -/
def set_uniq_name_if_need (db : DB) (suffix : String) (instName : Option Value)
    (initial_data : Vd) (asset : Value) : Vd :=
  let name := Dict.getD initial_data "name" Value.vnull
  if name != Value.vnull then initial_data
  else
    let name := if !name.truthy then Dict.getD initial_data "username" Value.vnull
      else name
    if instName == some name then initial_data
    else
      let collide := db.accounts.any
        (fun a => (a.attr "name" == name) && (a.attr "asset" == asset))
      let name := if collide then name.withSuffix "_" suffix else name
      Dict.insert initial_data "name" name

/-- account_q embeds the Q object of
AccountCreateUpdateSerializerMixin.do_create (account.py lines 128 to
132): an OR of a name condition (when the candidate has a truthy name)
and a username plus secret_type condition (when the candidate has a
truthy username); with neither condition the Q object is empty and
matches every row. -/
def account_q (vd : Vd) (a : Account) : Bool :=
  let nameV := Dict.getD vd "name" Value.vnull
  let userV := Dict.getD vd "username" Value.vnull
  if !nameV.truthy && !userV.truthy then true
  else
    (nameV.truthy && (a.attr "name" == nameV))
    || (userV.truthy && (a.attr "username" == userV)
        && (a.attr "secret_type" == Dict.getD vd "secret_type" Value.vnull))

/-- do_create_existing is the lookup
Account.objects.filter(asset=vd[asset]).filter(q).first() of do_create
(account.py line 134). -/
def do_create_existing (db : DB) (vd : Vd) : Option Account :=
  db.accounts.find?
    (fun a => (a.attr "asset" == Dict.getD vd "asset" Value.vnull) && account_q vd a)

/-- do_create embeds AccountCreateUpdateSerializerMixin.do_create
(account.py lines 124 to 148): pop on_invalid, look for an existing row of
the same asset matching the Q object; create when none exists; otherwise
skip, update every candidate field onto the row and save, or raise,
according to the policy. -/
def do_create (db : DB) (vdIn : Vd) : DB × Except String (Account × String) :=
  let on_invalid := Dict.get? vdIn "on_invalid"
  let vd := Dict.erase vdIn "on_invalid"
  match do_create_existing db vd with
  | none =>
      let created := db.createAccount vd
      (created.1, .ok (created.2, "created"))
  | some inst =>
      if on_invalid == some (Value.vstr "skip") then (db, .ok (inst, "skipped"))
      else if on_invalid == some (Value.vstr "update") then
        let inst' : Account := { inst with fields := Dict.update inst.fields vd }
        (db.save inst', .ok (inst', "updated"))
      else (db, .error "Account already exists")

/-- Exc models the exceptions that cross the bulk serializer: a database
IntegrityError, a rest framework ValidationError carrying its first detail
string, and any other exception carrying its str() message. -/
inductive Exc where
  | integrity (msg : String)
  | validation (msg : String)
  | other (msg : String)
deriving Repr, DecidableEq

/-- excMessage is the error text the bulk loop records for an exception:
e.detail[0] for a ValidationError and str(e) otherwise. -/
def excMessage : Exc → String
  | .integrity m => m
  | .validation m => m
  | .other m => m

/-- HandlerResult is the outcome of one create handler run: the store after
the run, plus either (instance, changed, state) or an exception. -/
abbrev HandlerResult : Type := DB × Except Exc (Account × Bool × String)

/-- Handler is the shape of the per target create handlers the bulk
serializer passes around: validated data, the filter lookup, the store. -/
abbrev Handler : Type := Vd → Vd → DB → HandlerResult

/-- get_filter_lookup embeds AssetAccountBulkSerializer.get_filter_lookup
(account.py lines 261 to 267); the serializer guarantees the three keys
are present in the validated data, so reading absent keys as None is only
a totalisation of the Python KeyError case. -/
def get_filter_lookup (vd : Vd) : Vd :=
  [("username", Dict.getD vd "username" Value.vnull),
   ("secret_type", Dict.getD vd "secret_type" Value.vnull),
   ("asset", Dict.getD vd "asset" Value.vnull)]

/-- matchesLookup models Account.objects.filter(**lookup) row matching. -/
def matchesLookup (lkp : Vd) (a : Account) : Bool :=
  lkp.all (fun p => a.attr p.1 == p.2)

/-- findLookup models Account.objects.filter(**lookup).first(). -/
def DB.findLookup (db : DB) (lkp : Vd) : Option Account :=
  db.accounts.find? (matchesLookup lkp)

/-- update_or_create models the Django
Account.objects.update_or_create(defaults=vd, **lookup) primitive: update
and save the matching row, or create one from the lookup plus defaults;
the boolean reports whether a row was created. -/
def DB.update_or_create (db : DB) (lkp defaults : Vd) : DB × Account × Bool :=
  match db.findLookup lkp with
  | some a =>
      let a' : Account := { a with fields := Dict.update a.fields defaults }
      (db.save a', a', false)
  | none =>
      let created := db.createAccount (Dict.update lkp defaults)
      (created.1, created.2, true)

/-- get_or_create models the Django
Account.objects.get_or_create(defaults=vd, **lookup) primitive. -/
def DB.get_or_create (db : DB) (lkp defaults : Vd) : DB × Account × Bool :=
  match db.findLookup lkp with
  | some a => (db, a, false)
  | none =>
      let created := db.createAccount (Dict.update lkp defaults)
      (created.1, created.2, true)

/-- handle_update_create embeds
AssetAccountBulkSerializer._handle_update_create (account.py lines 273 to
281): same stored secret short circuits to an unchanged skipped outcome,
otherwise update_or_create runs and the outcome is created or updated with
changed True. -/
def handle_update_create : Handler := fun vd lkp db =>
  match db.findLookup lkp with
  | some ori =>
      if ori.attr "secret" == (Dict.get? vd "secret").getD Value.vnull then
        (db, .ok (ori, false, "skipped"))
      else
        let r := db.update_or_create lkp vd
        (r.1, .ok (r.2.1, true, if r.2.2 then "created" else "updated"))
  | none =>
      let r := db.update_or_create lkp vd
      (r.1, .ok (r.2.1, true, if r.2.2 then "created" else "updated"))

/-- handle_skip_create embeds
AssetAccountBulkSerializer._handle_skip_create (account.py lines 283 to
287). -/
def handle_skip_create : Handler := fun vd lkp db =>
  let r := db.get_or_create lkp vd
  (r.1, .ok (r.2.1, r.2.2, if r.2.2 then "created" else "skipped"))

/-- handle_err_create embeds AssetAccountBulkSerializer._handle_err_create
(account.py lines 289 to 294): an existing row raises a ValidationError. -/
def handle_err_create : Handler := fun vd lkp db =>
  let r := db.get_or_create lkp vd
  if r.2.2 then (r.1, .ok (r.2.1, true, "created"))
  else (r.1, .error (.validation "Account already exists"))

/-- get_uniq_name embeds AssetAccountBulkSerializer.get_uniq_name
(account.py lines 269 to 271), with the random uuid4 hex fragment passed
in as suffix. -/
def get_uniq_name (vd : Vd) (suffix : String) : Value :=
  (Dict.getD vd "name" Value.vnull).withSuffix "-" suffix

/-- perform_create embeds AssetAccountBulkSerializer.perform_create
(account.py lines 296 to 303): one retry with a regenerated unique name
after an IntegrityError; every other first outcome, and whatever the retry
produces, surfaces unchanged. -/
def perform_create (handler : Handler) (suffix : String) (vd : Vd)
    (db : DB) : HandlerResult :=
  let lookup := get_filter_lookup vd
  match handler vd lookup db with
  | (db', .error (.integrity _)) =>
      let vd' := Dict.insert vd "name" (get_uniq_name vd suffix)
      handler vd' lookup db'
  | r => r

/-- unsupported_msg is the message recorded for an asset whose platform
does not support the secret type (account.py line 330). -/
def unsupported_msg (secret_type : Value) : String :=
  "Asset does not support this secret type: " ++ secret_type.pyStr

/-- process_asset embeds one iteration of the for loop of
AssetAccountBulkSerializer.perform_bulk_create (account.py lines 327 to
346): unsupported assets record an error entry; otherwise perform_create
runs on a copy of the data with the asset set, a success records changed,
instance id and state, a ValidationError records its first detail as the
error, and any other exception records its str() message; every branch
returns normally, so the fold over the remaining assets continues. -/
def process_asset (handler : Handler) (suffix : String) (vd : Vd)
    (supports : Nat → Bool) (secret_type : Value)
    (acc : DB × Dict Nat Vd) (assetId : Nat) : DB × Dict Nat Vd :=
  let db := acc.1
  let results := acc.2
  if !supports assetId then
    (db, Dict.insert results assetId
      [("error", Value.vstr (unsupported_msg secret_type)),
       ("state", Value.vstr "error")])
  else
    let vd' := Dict.insert vd "asset" (Value.vnat assetId)
    match perform_create handler suffix vd' db with
    | (db', .ok (inst, changed, state)) =>
        (db', Dict.insert results assetId
          [("changed", Value.vbool changed), ("instance", Value.vnat inst.id),
           ("state", Value.vstr state)])
    | (db', .error (.validation m)) =>
        (db', Dict.insert results assetId
          [("error", Value.vstr m), ("state", Value.vstr "error")])
    | (db', .error e) =>
        (db', Dict.insert results assetId
          [("error", Value.vstr (excMessage e)), ("state", Value.vstr "error")])

/-- bulk_loop is the whole for loop of perform_bulk_create: a fold of
process_asset over the assets, starting from an empty results dict. -/
def bulk_loop (handler : Handler) (suffix : String) (vd : Vd)
    (supports : Nat → Bool) (secret_type : Value) (db : DB)
    (assets : List Nat) : DB × Dict Nat Vd :=
  assets.foldl (process_asset handler suffix vd supports secret_type) (db, [])

/-- state_score is the state_score ranking dict of perform_bulk_create
(account.py line 349), with the 4 default of .get(state, 4). -/
def state_score (v : Value) : Nat :=
  match v with
  | .vstr "created" => 3
  | .vstr "updated" => 2
  | .vstr "skipped" => 1
  | .vstr "error" => 0
  | _ => 4

/-- entry_score is the sort key state_score.get(x[state], 4) applied to a
result entry. -/
def entry_score (r : Vd) : Nat :=
  state_score (Dict.getD r "state" Value.vnull)

/-- relabel_skipped is the error entry built for a skipped result under the
error policy (account.py lines 360 to 364). -/
def relabel_skipped (r : Vd) : Vd :=
  [("error", Value.vstr "Account has exist"), ("state", Value.vstr "error"),
   ("asset", Value.vstr ((Dict.getD r "asset" Value.vnull).pyStr))]

/-- collect_errors embeds the error aggregation of perform_bulk_create
under the error policy (account.py lines 355 to 364): the error entries in
order, then one relabelled entry per skipped result, in order. -/
def collect_errors (results : List Vd) : List Vd :=
  results.filter (fun r => Dict.getD r "state" Value.vnull == Value.vstr "error")
  ++ (results.filter
      (fun r => Dict.getD r "state" Value.vnull == Value.vstr "skipped")).map
      relabel_skipped

/-- get_create_handler embeds AssetAccountBulkSerializer.get_create_handler
(account.py lines 305 to 312). -/
def get_create_handler (on_invalid : Value) : Handler :=
  if on_invalid == Value.vstr "update" then handle_update_create
  else if on_invalid == Value.vstr "skip" then handle_skip_create
  else handle_err_create

/-- bulk_on_invalid is the popped policy vd.pop(on_invalid, skip) of
perform_bulk_create (account.py line 316). -/
def bulk_on_invalid (vdIn : Vd) : Value :=
  Dict.getD vdIn "on_invalid" (Value.vstr "skip")

/-- bulk_secret_type is vd.get(secret_type, password) of
perform_bulk_create (account.py line 317). -/
def bulk_secret_type (vdIn : Vd) : Value :=
  Dict.getD vdIn "secret_type" (Value.vstr "password")

/-- bulk_vd is the per call candidate data of perform_bulk_create after
its pops and the name default (account.py lines 315 to 320): assets and
on_invalid removed, and a falsy name replaced by the username. -/
def bulk_vd (vdIn : Vd) : Vd :=
  let vd := Dict.erase (Dict.erase vdIn "assets") "on_invalid"
  if !(Dict.getD vd "name" Value.vnull).truthy then
    Dict.insert vd "name" ((Dict.get? vd "username").getD Value.vnull)
  else vd

/-- bulk_state is the store and keyed results dict after the whole loop of
perform_bulk_create. -/
def bulk_state (db : DB) (vdIn : Vd) (assets : List Nat)
    (supports : Nat → Bool) (suffix : String) : DB × Dict Nat Vd :=
  bulk_loop (get_create_handler (bulk_on_invalid vdIn)) suffix (bulk_vd vdIn)
    supports (bulk_secret_type vdIn) db assets

/-- bulk_results_unsorted is the list comprehension of account.py line 348:
one entry per results dict item, the asset id prepended. -/
def bulk_results_unsorted (db : DB) (vdIn : Vd) (assets : List Nat)
    (supports : Nat → Bool) (suffix : String) : List Vd :=
  (bulk_state db vdIn assets supports suffix).2.map
    (fun p => ("asset", Value.vnat p.1) :: p.2)

/-- bulk_results_sorted is the sorted call of account.py line 350: the
stable ascending sort of the entries by state_score.get(state, 4). -/
def bulk_results_sorted (db : DB) (vdIn : Vd) (assets : List Nat)
    (supports : Nat → Bool) (suffix : String) : List Vd :=
  sortByKey entry_score (bulk_results_unsorted db vdIn assets supports suffix)

/-- perform_bulk_create embeds
AssetAccountBulkSerializer.perform_bulk_create (account.py lines 314 to
367): run the loop, sort the entries, and under the error policy raise the
aggregated error list when it is non empty; the store component is the
post loop store in every case, so per target work already applied is kept
even when the call fails. -/
def perform_bulk_create (db : DB) (vdIn : Vd) (assets : List Nat)
    (supports : Nat → Bool) (suffix : String) :
    DB × Except (List Vd) (List Vd) :=
  let db' := (bulk_state db vdIn assets supports suffix).1
  let results := bulk_results_sorted db vdIn assets supports suffix
  if bulk_on_invalid vdIn != Value.vstr "error" then (db', .ok results)
  else
    let errors := collect_errors results
    if errors.isEmpty then (db', .ok results) else (db', .error errors)

/-- ProtocolData models one validated entry of
AssetProtocolsSerializer (common.py lines 30 to 42): a protocol name and
an optional port; p.get(port, 0) reads a missing port as 0. -/
structure ProtocolData where
  name : String
  port : Option Int
deriving Repr, DecidableEq

/-- portD is p.get(port, 0) on a protocol entry. -/
def ProtocolData.portD (p : ProtocolData) : Int := p.port.getD 0

/-- PlatformProtocol models one protocol entry of a platform, as consumed
by the asset and platform serializers: name, port and the primary,
required and default flags. -/
structure PlatformProtocol where
  name : String
  port : Int
  primary : Bool
  required : Bool
  dflt : Bool
deriving Repr, DecidableEq

/-- protocols_required_of is the protocols_required half of
AssetSerializer._get_protocols_required_default (common.py lines 155 to
160): the platform protocols flagged required or primary. -/
def protocols_required_of (platform_protocols : List PlatformProtocol) :
    List PlatformProtocol :=
  platform_protocols.filter (fun p => p.required || p.primary)

/-- dedup_map is the dict comprehension of common.py line 259: a dict
keyed by protocol name built by assigning every entry in order, so the
last occurrence of a name wins while the key order is first seen. -/
def dedup_map (protocols_data : List ProtocolData) : Dict String ProtocolData :=
  protocols_data.foldl (fun m p => Dict.insert m p.name p) []

/-- protocols_not_found is the missing required name list of common.py
line 267. -/
def protocols_not_found (platform_protocols : List PlatformProtocol)
    (protocols_data : List ProtocolData) : List String :=
  ((protocols_required_of platform_protocols).filter
    (fun p => !(Dict.contains (dedup_map protocols_data) p.name))).map
    (fun p => p.name)

/-- validate_protocols embeds AssetSerializer.validate_protocols
(common.py lines 257 to 272): build the name keyed dedup dict, fail on the
first entry whose port lies outside 1 to 65535, fail when a required
platform protocol name is absent from the dict, listing all missing names
at once, and otherwise return the dict values. -/
def validate_protocols (platform_protocols : List PlatformProtocol)
    (protocols_data : List ProtocolData) : Except String (List ProtocolData) :=
  match protocols_data.find? (fun p => p.portD < 1 || p.portD > 65535) with
  | some p => .error (p.name ++ ": " ++ "port out of range (1-65535)")
  | none =>
    if !(protocols_not_found platform_protocols protocols_data).isEmpty then
      .error ("Protocol is required: " ++
        String.intercalate ", " (protocols_not_found platform_protocols protocols_data))
    else .ok (Dict.values (dedup_map protocols_data))

/-- set_first_primary is the assignment protocols[0][primary] = True of
PlatformSerializer.validate_protocols. -/
def set_first_primary : List PlatformProtocol → List PlatformProtocol
  | [] => []
  | p :: ps => { p with primary := true } :: ps

/-- platform_validate_protocols embeds
PlatformSerializer.validate_protocols (platform.py lines 180 to 188): an
empty list is rejected, and when no entry is flagged primary the first
entry is promoted; no deduplication happens here. -/
def platform_validate_protocols (protocols : List PlatformProtocol) :
    Except String (List PlatformProtocol) :=
  if protocols.isEmpty then .error "Protocols is required"
  else if (protocols.filter (fun p => p.primary)).isEmpty then
    .ok (set_first_primary protocols)
  else .ok protocols

/-- account_update embeds AccountCreateUpdateSerializerMixin.update
(account.py lines 165 to 174): username, on_invalid, push_now and params
are popped from the validated data, source_id is set to None, and the rest
framework ModelSerializer.update (the super call, external framework code)
assigns every remaining item onto the instance with setattr and saves. -/
def account_update (inst : Account) (validated_data : Vd) : Account :=
  let vd := Dict.erase (Dict.erase (Dict.erase
    (Dict.erase validated_data "username") "on_invalid") "push_now") "params"
  let vd := Dict.insert vd "source_id" Value.vnull
  { inst with fields := Dict.update inst.fields vd }

/-! Claim theorems. -/

/-- C9: for every account and every update payload, the single account
update operation discards a username supplied in the payload (the stored
username is unchanged), always writes source_id = None, and keeps the
primary key. -/
theorem account_update_keeps_username_resets_source_id
    (inst : Account) (validated_data : Vd) :
    Dict.get? (account_update inst validated_data).fields "username" =
      Dict.get? inst.fields "username" ∧
    Dict.get? (account_update inst validated_data).fields "source_id" =
      some Value.vnull ∧
    (account_update inst validated_data).id = inst.id := by
  unfold account_update
  refine ⟨?_, ?_, rfl⟩
  · rw [Dict.get?_update]
    have hnone : lastWith (fun p => p.1 == "username")
        (Dict.insert (Dict.erase (Dict.erase (Dict.erase
          (Dict.erase validated_data "username") "on_invalid") "push_now")
          "params") "source_id" Value.vnull) = none := by
      rw [lastWith_eq_none_iff]
      intro q hq
      rcases Dict.mem_insert _ _ _ q hq with hq | rfl
      · have h1 := (Dict.mem_erase _ _ _ hq).1
        have h2 := (Dict.mem_erase _ _ _ h1).1
        have h3 := (Dict.mem_erase _ _ _ h2).1
        have h4 := (Dict.mem_erase _ _ _ h3).2
        exact beq_eq_false_iff_ne.mpr h4
      · decide
    rw [hnone]
    rfl
  · rw [Dict.get?_update, lastWith_insert_key]
    rfl

/-- C3: for a candidate payload being created (no instance): an explicitly
set non null name is returned unchanged with no collision check, whatever
the store holds; an absent name falls back to the username; on a name
collision within the asset scope the returned name is the fallback plus an
underscore and the four character suffix, and differs from the colliding
name. -/
theorem set_uniq_name_if_need_spec (db : DB) (suffix : String)
    (data : Vd) (asset : Value) (u : String)
    (hu : Dict.getD data "username" Value.vnull = Value.vstr u) :
    (∀ v, Dict.get? data "name" = some v → v ≠ Value.vnull →
      set_uniq_name_if_need db suffix none data asset = data) ∧
    (Dict.getD data "name" Value.vnull = Value.vnull →
      (db.accounts.any (fun a =>
          (a.attr "name" == Value.vstr u) && (a.attr "asset" == asset)) = false →
        Dict.get? (set_uniq_name_if_need db suffix none data asset) "name" =
          some (Value.vstr u)) ∧
      (db.accounts.any (fun a =>
          (a.attr "name" == Value.vstr u) && (a.attr "asset" == asset)) = true →
        Dict.get? (set_uniq_name_if_need db suffix none data asset) "name" =
          some (Value.vstr (u ++ "_" ++ suffix)) ∧
        Value.vstr (u ++ "_" ++ suffix) ≠ Value.vstr u)) := by
  constructor
  · intro v hv hvn
    unfold set_uniq_name_if_need
    rw [show Dict.getD data "name" Value.vnull = v from by
      unfold Dict.getD; rw [hv]; rfl]
    rw [if_pos (by simpa [bne_iff_ne] using hvn)]
  · intro hname
    have hbody : set_uniq_name_if_need db suffix none data asset =
        (let name := Value.vstr u
         if (none : Option Value) == some name then data
         else
           let collide := db.accounts.any (fun a =>
             (a.attr "name" == name) && (a.attr "asset" == asset))
           let name := if collide then name.withSuffix "_" suffix else name
           Dict.insert data "name" name) := by
      unfold set_uniq_name_if_need
      rw [hname]
      rw [if_neg (by simp)]
      have : (if !(Value.vnull).truthy
          then Dict.getD data "username" Value.vnull else Value.vnull) =
          Value.vstr u := by
        rw [if_pos (by decide)]
        exact hu
      rw [this]
    constructor
    · intro hco
      rw [hbody]
      show Dict.get? (Dict.insert data "name"
        (if db.accounts.any _ then _ else Value.vstr u)) "name" = _
      rw [hco]
      simpa using Dict.get?_insert_self data "name" (Value.vstr u)
    · intro hco
      have hne : Value.vstr (u ++ "_" ++ suffix) ≠ Value.vstr u := by
        intro hc
        have hs : u ++ "_" ++ suffix = u := by injection hc
        have := congrArg String.length hs
        rw [String.length_append, String.length_append,
          show ("_" : String).length = 1 from rfl] at this
        omega
      refine ⟨?_, hne⟩
      rw [hbody]
      show Dict.get? (Dict.insert data "name"
        (if db.accounts.any _ then (Value.vstr u).withSuffix "_" suffix
         else Value.vstr u)) "name" = _
      rw [hco]
      simpa [Value.withSuffix] using
        Dict.get?_insert_self data "name" (Value.vstr (u ++ "_" ++ suffix))

/-- db3C is a store holding one account named root on asset 1. -/
def db3C : DB := ⟨[⟨1, [("name", Value.vstr "root"), ("asset", Value.vnat 1)]⟩], 2⟩

/-- data3C is a candidate payload with a username and no name. -/
def data3C : Vd := [("username", Value.vstr "root")]

/-- Witness for C3: on the concrete colliding store the fallback name gets
the suffix and differs from the stored name. -/
theorem set_uniq_name_if_need_witness :
    Dict.getD data3C "username" Value.vnull = Value.vstr "root" ∧
    Dict.get? (set_uniq_name_if_need db3C "ab12" none data3C (Value.vnat 1))
      "name" = some (Value.vstr ("root" ++ "_" ++ "ab12")) ∧
    Value.vstr ("root" ++ "_" ++ "ab12") ≠ Value.vstr "root" := by
  refine ⟨by decide, ?_⟩
  have h := (set_uniq_name_if_need_spec db3C "ab12" data3C (Value.vnat 1)
    "root" (by decide)).2 (by decide)
  exact h.2 (by decide)

/-- C2 counterexample: a caller supplied username and a template username
on the same incoming record; the merged record carries the template value,
not the caller value, refuting the claim that explicit request values win
on conflict. -/
theorem from_template_if_need_counterexample :
    from_template_if_need
      [⟨"t1", [("username", Value.vstr "tpl_user")]⟩]
      [("template", Value.vstr "t1"), ("username", Value.vstr "caller_user")] =
      .ok [("username", Value.vstr "tpl_user")] ∧
    Value.vstr "tpl_user" ≠ Value.vstr "caller_user" := by
  exact ⟨rfl, by decide⟩

/-- C2 amended: when a truthy template id resolves to a template, the
merged data is the incoming data (template key popped) updated with the
non null non ignored template fields, so on a conflicting key the LAST
template occurrence wins and the caller value is shadowed; keys the
template does not set keep the caller value. -/
theorem from_template_if_need_template_wins (templates : List AccountTemplate)
    (data : Vd) (t : AccountTemplate)
    (htru : (Dict.getD data "template" Value.vnull).truthy = true)
    (ht : templates.find?
      (fun t2 => Value.vstr t2.id == Dict.getD data "template" Value.vnull) =
      some t) :
    from_template_if_need templates data =
      .ok (Dict.update (Dict.erase data "template") (template_attrs t)) ∧
    ∀ k, Dict.get?
        (Dict.update (Dict.erase data "template") (template_attrs t)) k =
      optOr ((lastWith (fun p => p.1 == k) (template_attrs t)).map (fun p => p.2))
        (Dict.get? (Dict.erase data "template") k) := by
  constructor
  · unfold from_template_if_need
    rw [if_neg (by rw [htru]; decide)]
    rw [ht]
  · intro k
    exact Dict.get?_update _ _ k

/-- tC2 is a template with a username, a secret type and a null comment. -/
def tC2 : AccountTemplate :=
  ⟨"t1", [("username", Value.vstr "tpl_user"),
          ("secret_type", Value.vstr "ssh_key"), ("comment", Value.vnull)]⟩

/-- dataC2 is an incoming record naming the template and a username. -/
def dataC2 : Vd :=
  [("template", Value.vstr "t1"), ("username", Value.vstr "caller_user")]

/-- Witness for the amended C2 on a concrete template and record. -/
theorem from_template_if_need_template_wins_witness :
    (Dict.getD dataC2 "template" Value.vnull).truthy = true ∧
    from_template_if_need [tC2] dataC2 =
      .ok (Dict.update (Dict.erase dataC2 "template") (template_attrs tC2)) := by
  exact ⟨by decide,
    (from_template_if_need_template_wins [tC2] dataC2 tC2 (by decide) rfl).1⟩

/-- C4: single account reconciliation by do_create: with no existing row of
the asset matching the name or username plus secret type disjunction the
candidate is created with outcome created; with a match, policy skip
returns the row unchanged, policy update assigns every candidate field
onto the row (last occurrence winning) and saves it with outcome updated,
and policy error fails with the conflict message leaving the store
untouched. -/
theorem do_create_policy (db : DB) (vd : Vd) :
    (do_create_existing db (Dict.erase vd "on_invalid") = none →
      do_create db vd =
        ((db.createAccount (Dict.erase vd "on_invalid")).1,
         .ok ((db.createAccount (Dict.erase vd "on_invalid")).2, "created"))) ∧
    (∀ a, do_create_existing db (Dict.erase vd "on_invalid") = some a →
      (Dict.get? vd "on_invalid" = some (Value.vstr "skip") →
        do_create db vd = (db, .ok (a, "skipped"))) ∧
      (Dict.get? vd "on_invalid" = some (Value.vstr "update") →
        do_create db vd =
          (db.save
            { a with fields := Dict.update a.fields (Dict.erase vd "on_invalid") },
           .ok ({ a with
             fields := Dict.update a.fields (Dict.erase vd "on_invalid") },
             "updated")) ∧
        (∀ q w, lastWith (fun p => p.1 == q) (Dict.erase vd "on_invalid") = some w →
          Dict.get? (Dict.update a.fields (Dict.erase vd "on_invalid")) q =
            some w.2)) ∧
      (Dict.get? vd "on_invalid" = some (Value.vstr "error") →
        do_create db vd = (db, .error "Account already exists"))) := by
  refine ⟨?_, ?_⟩
  · intro h
    unfold do_create
    simp only [h]
  · intro a h
    refine ⟨?_, ?_, ?_⟩
    · intro hsk
      unfold do_create
      simp only [h, hsk]
      rw [if_pos (by decide)]
    · intro hup
      constructor
      · unfold do_create
        simp only [h, hup]
        rw [if_neg (by decide), if_pos (by decide)]
      · intro q w hq
        rw [Dict.get?_update, hq]
        rfl
    · intro herr
      unfold do_create
      simp only [h, herr]
      rw [if_neg (by decide), if_neg (by decide)]

/-- db4C is a store holding one account named web on asset 1. -/
def db4C : DB := ⟨[⟨1, [("name", Value.vstr "web"), ("asset", Value.vnat 1)]⟩], 2⟩

/-- a4C is the stored account of db4C. -/
def a4C : Account := ⟨1, [("name", Value.vstr "web"), ("asset", Value.vnat 1)]⟩

/-- vd4C is a colliding candidate under the skip policy. -/
def vd4C : Vd :=
  [("asset", Value.vnat 1), ("name", Value.vstr "web"),
   ("on_invalid", Value.vstr "skip")]

/-- Witness for C4: the concrete colliding candidate under skip returns the
stored row unchanged with outcome skipped. -/
theorem do_create_policy_witness :
    do_create_existing db4C (Dict.erase vd4C "on_invalid") = some a4C ∧
    Dict.get? vd4C "on_invalid" = some (Value.vstr "skip") ∧
    do_create db4C vd4C = (db4C, .ok (a4C, "skipped")) := by
  exact ⟨rfl, rfl, ((do_create_policy db4C vd4C).2 a4C rfl).1 rfl⟩

/-- C10: under the update policy handler, an existing row for the username,
secret_type and asset lookup whose stored secret equals the candidate
secret yields the unchanged row with changed False and state skipped; a
state updated arises only when a row exists whose stored secret differs
from the candidate secret. -/
theorem handle_update_create_secret (db : DB) (vd : Vd) :
    (∀ a, db.findLookup (get_filter_lookup vd) = some a →
      (a.attr "secret" == (Dict.get? vd "secret").getD Value.vnull) = true →
      handle_update_create vd (get_filter_lookup vd) db =
        (db, .ok (a, false, "skipped"))) ∧
    (∀ db' inst changed,
      handle_update_create vd (get_filter_lookup vd) db =
        (db', .ok (inst, changed, "updated")) →
      ∃ a, db.findLookup (get_filter_lookup vd) = some a ∧
        (a.attr "secret" == (Dict.get? vd "secret").getD Value.vnull) = false) := by
  constructor
  · intro a ha hsec
    unfold handle_update_create
    simp only [ha, hsec]
    simp
  · intro db' inst changed h
    cases hf : db.findLookup (get_filter_lookup vd) with
    | none =>
      simp only [handle_update_create, hf] at h
      have hcreated : (db.update_or_create (get_filter_lookup vd) vd).2.2 = true := by
        unfold DB.update_or_create
        rw [hf]
      rw [hcreated] at h
      simp at h
    | some ori =>
      by_cases hsec :
          (ori.attr "secret" == (Dict.get? vd "secret").getD Value.vnull) = true
      · simp only [handle_update_create, hf, hsec] at h
        simp at h
      · exact ⟨ori, rfl, by simpa using hsec⟩

/-- db10C is a store with one root password account on asset 1 storing
secret s. -/
def db10C : DB :=
  ⟨[⟨3, [("username", Value.vstr "root"), ("secret_type", Value.vstr "password"),
        ("asset", Value.vnat 1), ("secret", Value.vstr "s")]⟩], 4⟩

/-- a10C is the stored account of db10C. -/
def a10C : Account :=
  ⟨3, [("username", Value.vstr "root"), ("secret_type", Value.vstr "password"),
      ("asset", Value.vnat 1), ("secret", Value.vstr "s")]⟩

/-- vd10C is a candidate carrying the same secret s. -/
def vd10C : Vd :=
  [("username", Value.vstr "root"), ("secret_type", Value.vstr "password"),
   ("asset", Value.vnat 1), ("secret", Value.vstr "s")]

/-- Witness for C10: the concrete same secret candidate is skipped with
changed False and the store is untouched. -/
theorem handle_update_create_secret_witness :
    db10C.findLookup (get_filter_lookup vd10C) = some a10C ∧
    (a10C.attr "secret" == (Dict.get? vd10C "secret").getD Value.vnull) = true ∧
    handle_update_create vd10C (get_filter_lookup vd10C) db10C =
      (db10C, .ok (a10C, false, "skipped")) := by
  exact ⟨rfl, by decide,
    (handle_update_create_secret db10C vd10C).1 a10C rfl (by decide)⟩

/-- process_asset always records an entry for the processed asset id,
whatever branch runs. -/
theorem process_asset_inserts (handler : Handler) (suffix : String) (vd : Vd)
    (supports : Nat → Bool) (st : Value) (acc : DB × Dict Nat Vd) (x : Nat) :
    ∃ e, (process_asset handler suffix vd supports st acc x).2 =
      Dict.insert acc.2 x e := by
  unfold process_asset
  cases hs : supports x with
  | false =>
    refine ⟨[("error", Value.vstr (unsupported_msg st)),
      ("state", Value.vstr "error")], ?_⟩
    rw [if_pos (by decide)]
  | true =>
    rw [if_neg (by decide)]
    cases hpc : perform_create handler suffix
        (Dict.insert vd "asset" (Value.vnat x)) acc.1 with
    | mk db' res =>
      cases res with
      | ok v =>
        obtain ⟨inst, changed, state⟩ := v
        refine ⟨[("changed", Value.vbool changed),
          ("instance", Value.vnat inst.id), ("state", Value.vstr state)], ?_⟩
        simp only [hpc]
      | error e =>
        cases e with
        | integrity m =>
          refine ⟨[("error", Value.vstr (excMessage (.integrity m))),
            ("state", Value.vstr "error")], ?_⟩
          simp only [hpc]
        | validation m =>
          refine ⟨[("error", Value.vstr m), ("state", Value.vstr "error")], ?_⟩
          simp only [hpc]
        | other m =>
          refine ⟨[("error", Value.vstr (excMessage (.other m))),
            ("state", Value.vstr "error")], ?_⟩
          simp only [hpc]

/-- The bulk loop records an entry for every asset seen so far or already
recorded in the accumulator. -/
theorem bulk_foldl_covers (handler : Handler) (suffix : String) (vd : Vd)
    (supports : Nat → Bool) (st : Value) (assets : List Nat) :
    ∀ acc : DB × Dict Nat Vd, ∀ a, (a ∈ assets ∨ Dict.contains acc.2 a = true) →
      Dict.contains
        (assets.foldl (process_asset handler suffix vd supports st) acc).2 a =
        true := by
  induction assets with
  | nil =>
    intro acc a h
    rcases h with h | h
    · exact absurd h (List.not_mem_nil a)
    · exact h
  | cons x xs ih =>
    intro acc a h
    rw [List.foldl_cons]
    apply ih
    obtain ⟨e, he⟩ := process_asset_inserts handler suffix vd supports st acc x
    rcases h with h | h
    · rcases List.mem_cons.mp h with rfl | h
      · right; rw [he]; exact Dict.contains_insert_self _ _ _
      · left; exact h
    · right; rw [he]; exact Dict.contains_insert_of_contains _ _ _ _ h

/-- C6: in the bulk orchestrator, an IntegrityError from the handler is
retried exactly once with the regenerated suffixed unique name and the
retry outcome surfaces as is; a first outcome that is no IntegrityError
surfaces unchanged; an exception from perform_create on one target is
recorded in that target entry as state error with the exception message
and the loop returns normally; and after the loop every asset of the
batch has a result entry, so no per target exception aborts the batch. -/
theorem bulk_per_target_isolation (handler : Handler) (suffix : String)
    (vd : Vd) (supports : Nat → Bool) (st : Value) :
    (∀ db db1 m,
      handler vd (get_filter_lookup vd) db = (db1, .error (.integrity m)) →
      perform_create handler suffix vd db =
        handler (Dict.insert vd "name" (get_uniq_name vd suffix))
          (get_filter_lookup vd) db1) ∧
    (∀ db,
      (∀ db1 m,
        handler vd (get_filter_lookup vd) db ≠ (db1, .error (.integrity m))) →
      perform_create handler suffix vd db =
        handler vd (get_filter_lookup vd) db) ∧
    (∀ db results assetId db' e, supports assetId = true →
      perform_create handler suffix
        (Dict.insert vd "asset" (Value.vnat assetId)) db = (db', .error e) →
      process_asset handler suffix vd supports st (db, results) assetId =
        (db', Dict.insert results assetId
          [("error", Value.vstr (excMessage e)),
           ("state", Value.vstr "error")])) ∧
    (∀ db assets a, a ∈ assets →
      Dict.contains
        (bulk_loop handler suffix vd supports st db assets).2 a = true) := by
  refine ⟨?_, ?_, ?_, ?_⟩
  · intro db db1 m h
    unfold perform_create
    simp only [h]
  · intro db hne
    cases hr : handler vd (get_filter_lookup vd) db with
    | mk db1 res =>
      cases res with
      | ok v => simp only [perform_create, hr]
      | error e =>
        cases e with
        | integrity m => exact absurd hr (hne db1 m)
        | validation m => simp only [perform_create, hr]
        | other m => simp only [perform_create, hr]
  · intro db results assetId db' e hs hpc
    unfold process_asset
    rw [if_neg (by rw [hs]; decide)]
    simp only [hpc]
    cases e with
    | integrity m => rfl
    | validation m => rfl
    | other m => rfl
  · intro db assets a ha
    exact bulk_foldl_covers handler suffix vd supports st assets (db, [])
      a (Or.inl ha)

/-- handlerC6 is a concrete handler raising an IntegrityError on the name
root and creating otherwise. -/
def handlerC6 : Handler := fun vd _ db =>
  if Dict.getD vd "name" Value.vnull == Value.vstr "root" then
    (db, .error (.integrity "duplicate key"))
  else
    ((db.createAccount vd).1, .ok ((db.createAccount vd).2, true, "created"))

/-- vdC6 is a candidate whose name collides under handlerC6. -/
def vdC6 : Vd := [("name", Value.vstr "root"), ("username", Value.vstr "root")]

/-- dbC6 is the empty store. -/
def dbC6 : DB := ⟨[], 1⟩

/-- Witness for C6: the concrete IntegrityError is retried once with the
suffixed name. -/
theorem bulk_per_target_isolation_witness :
    handlerC6 vdC6 (get_filter_lookup vdC6) dbC6 =
      (dbC6, .error (.integrity "duplicate key")) ∧
    perform_create handlerC6 "abcd" vdC6 dbC6 =
      handlerC6 (Dict.insert vdC6 "name" (get_uniq_name vdC6 "abcd"))
        (get_filter_lookup vdC6) dbC6 := by
  exact ⟨rfl,
    (bulk_per_target_isolation handlerC6 "abcd" vdC6 (fun _ => true)
      Value.vnull).1 dbC6 dbC6 "duplicate key" rfl⟩

/-- An ok outcome of perform_bulk_create always carries the sorted result
list. -/
theorem perform_bulk_ok_results (db : DB) (vdIn : Vd) (assets : List Nat)
    (supports : Nat → Bool) (suffix : String) (db2 : DB) (results : List Vd)
    (h : perform_bulk_create db vdIn assets supports suffix =
      (db2, .ok results)) :
    results = bulk_results_sorted db vdIn assets supports suffix := by
  unfold perform_bulk_create at h
  by_cases h1 : (bulk_on_invalid vdIn != Value.vstr "error") = true
  · rw [if_pos h1] at h
    injection h with ha hb
    injection hb with hc
    exact hc.symm
  · rw [if_neg h1] at h
    by_cases h2 :
        (collect_errors (bulk_results_sorted db vdIn assets supports suffix)).isEmpty = true
    · rw [if_pos h2] at h
      injection h with ha hb
      injection hb with hc
      exact hc.symm
    · rw [if_neg h2] at h
      injection h with ha hb
      exact absurd hb (by intro hc; exact Except.noConfusion hc)

/-- dbC1 is the empty store used in the C1 scenarios. -/
def dbC1 : DB := ⟨[], 1⟩

/-- vdC1 is a bulk candidate under the skip policy. -/
def vdC1 : Vd :=
  [("username", Value.vstr "root"), ("secret", Value.vstr "s"),
   ("secret_type", Value.vstr "password"), ("on_invalid", Value.vstr "skip")]

/-- e1C1 is the error entry the C1 scenario yields for asset 1. -/
def e1C1 : Vd :=
  [("asset", Value.vnat 1),
   ("error", Value.vstr "Asset does not support this secret type: password"),
   ("state", Value.vstr "error")]

/-- e2C1 is the created entry the C1 scenario yields for asset 2. -/
def e2C1 : Vd :=
  [("asset", Value.vnat 2), ("changed", Value.vbool true),
   ("instance", Value.vnat 1), ("state", Value.vstr "created")]

/-- C1 counterexample: a bulk call over one unsupported and one fresh
asset returns the error entry FIRST and the created entry last, refuting
the claimed order with created entries first and error entries last. -/
theorem perform_bulk_create_order_counterexample :
    (perform_bulk_create dbC1 vdC1 [1, 2] (fun n => n == 2) "abcd").2 =
      Except.ok [e1C1, e2C1] ∧
    Dict.getD e1C1 "state" Value.vnull = Value.vstr "error" ∧
    Dict.getD e2C1 "state" Value.vnull = Value.vstr "created" ∧
    entry_score e1C1 < entry_score e2C1 := by
  exact ⟨rfl, rfl, rfl, by decide⟩

/-- C1 amended: every result list an ok bulk call returns is sorted
ascending by outcome rank, error 0, then skipped 1, then updated 2, then
created 3 (the reverse of the claimed direction, since Python sorted is
ascending on state_score), and the sort is stable within each rank: for
every rank the filtered subsequence equals that of the unsorted loop
output, which lists the targets in input order. -/
theorem perform_bulk_create_sorted_stable (db : DB) (vdIn : Vd)
    (assets : List Nat) (supports : Nat → Bool) (suffix : String)
    (db2 : DB) (results : List Vd)
    (h : perform_bulk_create db vdIn assets supports suffix =
      (db2, .ok results)) :
    results.Sorted (fun a b => entry_score a ≤ entry_score b) ∧
    ∀ n, results.filter (fun r => entry_score r == n) =
      (bulk_results_unsorted db vdIn assets supports suffix).filter
        (fun r => entry_score r == n) := by
  have hres := perform_bulk_ok_results db vdIn assets supports suffix db2 results h
  rw [hres]
  unfold bulk_results_sorted
  exact ⟨sorted_sortByKey entry_score _, fun n => filter_sortByKey entry_score _ n⟩

/-- dbC1W is the store after the C1 scenario: the account created for
asset 2 is persisted. -/
def dbC1W : DB :=
  ⟨[⟨1, [("username", Value.vstr "root"), ("secret_type", Value.vstr "password"),
        ("asset", Value.vnat 2), ("secret", Value.vstr "s"),
        ("name", Value.vstr "root")]⟩], 2⟩

/-- Witness for the amended C1 on the concrete scenario. -/
theorem perform_bulk_create_sorted_stable_witness :
    perform_bulk_create dbC1 vdC1 [1, 2] (fun n => n == 2) "abcd" =
      (dbC1W, Except.ok [e1C1, e2C1]) ∧
    List.Sorted (fun a b => entry_score a ≤ entry_score b) [e1C1, e2C1] := by
  exact ⟨rfl,
    (perform_bulk_create_sorted_stable dbC1 vdC1 [1, 2] (fun n => n == 2)
      "abcd" dbC1W [e1C1, e2C1] rfl).1⟩

/-- C5 counterexample: the error policy relabelling of a skipped entry
carries the literal message Account has exist, not the claimed message
already Exists. -/
theorem collect_errors_message_counterexample :
    collect_errors [[("asset", Value.vnat 1), ("changed", Value.vbool false),
      ("instance", Value.vnat 5), ("state", Value.vstr "skipped")]] =
      [[("error", Value.vstr "Account has exist"),
        ("state", Value.vstr "error"), ("asset", Value.vstr "1")]] ∧
    Value.vstr "Account has exist" ≠ Value.vstr "already exists" := by
  exact ⟨rfl, by decide⟩

/-- C5 amended: under the error policy the store component of the call is
always the post loop store, so per target creations applied before a
failure are not rolled back; the call fails with the full aggregated error
list exactly when that list is non empty; the aggregate contains every
error entry and one relabelled entry per skipped entry, the relabelled
entry keyed by the stringified asset and carrying the message Account has
exist (not already exists); moreover the error policy handler itself never
returns a skipped state, an existing row instead raises Account already
exists, which the loop records as an error entry. -/
theorem perform_bulk_create_error_policy (db : DB) (vdIn : Vd)
    (assets : List Nat) (supports : Nat → Bool) (suffix : String)
    (hpolicy : bulk_on_invalid vdIn = Value.vstr "error") :
    ((perform_bulk_create db vdIn assets supports suffix).1 =
      (bulk_state db vdIn assets supports suffix).1) ∧
    (collect_errors (bulk_results_sorted db vdIn assets supports suffix) ≠ [] →
      (perform_bulk_create db vdIn assets supports suffix).2 =
        .error (collect_errors (bulk_results_sorted db vdIn assets supports suffix))) ∧
    (∀ r, r ∈ bulk_results_sorted db vdIn assets supports suffix →
      Dict.getD r "state" Value.vnull = Value.vstr "error" →
      r ∈ collect_errors (bulk_results_sorted db vdIn assets supports suffix)) ∧
    (∀ r, r ∈ bulk_results_sorted db vdIn assets supports suffix →
      Dict.getD r "state" Value.vnull = Value.vstr "skipped" →
      relabel_skipped r ∈
        collect_errors (bulk_results_sorted db vdIn assets supports suffix) ∧
      Dict.get? (relabel_skipped r) "error" =
        some (Value.vstr "Account has exist")) ∧
    (∀ vdh lkp dbh,
      (handle_err_create vdh lkp dbh).2 =
        .error (.validation "Account already exists") ∨
      ∃ a, (handle_err_create vdh lkp dbh).2 = .ok (a, true, "created")) := by
  refine ⟨?_, ?_, ?_, ?_, ?_⟩
  · simp only [perform_bulk_create]
    split
    · rfl
    · split
      · rfl
      · rfl
  · intro hne
    simp only [perform_bulk_create, hpolicy]
    rw [if_neg (by decide)]
    rw [if_neg (by
      intro hc
      exact hne (List.isEmpty_iff.mp hc))]
  · intro r hr hstate
    unfold collect_errors
    apply List.mem_append.mpr
    left
    exact List.mem_filter.mpr ⟨hr, by rw [hstate]; rfl⟩
  · intro r hr hstate
    constructor
    · unfold collect_errors
      apply List.mem_append.mpr
      right
      exact List.mem_map_of_mem relabel_skipped
        (List.mem_filter.mpr ⟨hr, by rw [hstate]; rfl⟩)
    · rfl
  · intro vdh lkp dbh
    unfold handle_err_create DB.get_or_create
    cases hf : dbh.findLookup lkp with
    | some a =>
      left
      rfl
    | none =>
      right
      exact ⟨(dbh.createAccount (Dict.update lkp vdh)).2, rfl⟩

/-- dbC5 is a store already holding a root password account on asset 2. -/
def dbC5 : DB :=
  ⟨[⟨7, [("username", Value.vstr "root"), ("secret_type", Value.vstr "password"),
        ("asset", Value.vnat 2), ("name", Value.vstr "root"),
        ("secret", Value.vstr "old")]⟩], 8⟩

/-- vdC5 is a bulk candidate under the error policy. -/
def vdC5 : Vd :=
  [("username", Value.vstr "root"), ("secret", Value.vstr "s"),
   ("secret_type", Value.vstr "password"), ("on_invalid", Value.vstr "error")]

/-- Witness for the amended C5: on the concrete scenario with one fresh
and one pre existing target the call fails with the aggregated list while
the store keeps the row created for the fresh target. -/
theorem perform_bulk_create_error_policy_witness :
    bulk_on_invalid vdC5 = Value.vstr "error" ∧
    collect_errors (bulk_results_sorted dbC5 vdC5 [1, 2] (fun _ => true) "abcd") ≠ [] ∧
    (perform_bulk_create dbC5 vdC5 [1, 2] (fun _ => true) "abcd").2 =
      .error (collect_errors
        (bulk_results_sorted dbC5 vdC5 [1, 2] (fun _ => true) "abcd")) ∧
    (perform_bulk_create dbC5 vdC5 [1, 2] (fun _ => true) "abcd").1 =
      (bulk_state dbC5 vdC5 [1, 2] (fun _ => true) "abcd").1 := by
  have h := perform_bulk_create_error_policy dbC5 vdC5 [1, 2] (fun _ => true)
    "abcd" rfl
  exact ⟨rfl, by decide, h.2.1 (by decide), h.1⟩

/-- The keys of the dedup dict are the protocol names in first seen
order. -/
theorem dedup_map_keys (X : List ProtocolData) :
    Dict.keys (dedup_map X) = firstSeen (X.map (fun p => p.name)) := by
  unfold dedup_map firstSeen
  exact Dict.keys_foldl_insert (fun p => p.name) (fun p => p) X []

/-- Looking a name up in the dedup dict yields the last entry of that
name. -/
theorem dedup_map_get? (X : List ProtocolData) (k : String) :
    Dict.get? (dedup_map X) k = lastWith (fun p => p.name == k) X := by
  unfold dedup_map
  rw [Dict.get?_foldl_insert (fun p => p.name) (fun p => p) X [] k]
  cases hl : lastWith (fun p => p.name == k) X <;> simp [hl]

/-- Every pair of the dedup dict is a protocol of the input keyed by its
own name. -/
theorem dedup_map_pair (X : List ProtocolData) (q : String × ProtocolData)
    (hq : q ∈ dedup_map X) : q.2.name = q.1 ∧ q.2 ∈ X := by
  unfold dedup_map at hq
  rcases Dict.foldl_insert_pair (fun p => p.name) (fun p => p) X [] q hq with
    hq | ⟨x, hx, rfl⟩
  · exact absurd hq (List.not_mem_nil q)
  · exact ⟨rfl, hx⟩

/-- The dedup dict has pairwise distinct keys. -/
theorem dedup_map_nodup (X : List ProtocolData) :
    (Dict.keys (dedup_map X)).Nodup := by
  rw [dedup_map_keys]
  exact firstSeen_nodup _

/-- Membership of the dedup dict values pins the entry down as the last
input occurrence of its name. -/
theorem mem_values_dedup (X : List ProtocolData) (p : ProtocolData)
    (hp : p ∈ Dict.values (dedup_map X)) :
    lastWith (fun q => q.name == p.name) X = some p := by
  obtain ⟨k, hk⟩ := Dict.exists_get?_of_mem_values _ (dedup_map_nodup X) p hp
  rw [dedup_map_get?] at hk
  have hname : p.name = k := by simpa using (lastWith_mem _ _ _ hk).2
  rw [hname]
  exact hk

/-- The names of the dedup dict values are its keys. -/
theorem dedup_map_values_names (X : List ProtocolData) :
    (Dict.values (dedup_map X)).map (fun p => p.name) =
      Dict.keys (dedup_map X) := by
  unfold Dict.values Dict.keys
  rw [List.map_map]
  exact List.map_congr_left (fun q hq => (dedup_map_pair X q hq).1)

/-- On a list with pairwise distinct names the dedup dict is the identity
pairing. -/
theorem dedup_map_of_nodup (Y : List ProtocolData)
    (hnd : (Y.map (fun p => p.name)).Nodup) :
    dedup_map Y = Y.map (fun p => (p.name, p)) := by
  unfold dedup_map
  have h := Dict.foldl_insert_fresh (fun p => p.name) (fun p => p) Y []
    (fun x _ => rfl) hnd
  simpa using h

/-- The values of the identity pairing give back the list. -/
theorem values_map_pair (Y : List ProtocolData) :
    Dict.values (Y.map (fun p => (p.name, p))) = Y := by
  unfold Dict.values
  rw [List.map_map]
  have h : ∀ p ∈ Y,
      ((fun q : String × ProtocolData => q.2) ∘ (fun p => (p.name, p))) p =
        id p := fun p _ => rfl
  rw [List.map_congr_left h, List.map_id]

/-- Containment in the dedup dict is name membership in the input. -/
theorem dedup_map_contains (X : List ProtocolData) (n : String) :
    Dict.contains (dedup_map X) n = true ↔ n ∈ X.map (fun p => p.name) := by
  rw [Dict.contains_iff_mem_keys, dedup_map_keys, firstSeen_mem]

/-- An ok outcome of validate_protocols forces the dedup values result, a
clean port scan and no missing required protocol. -/
theorem validate_protocols_ok_elim (C : List PlatformProtocol)
    (X Y : List ProtocolData) (h : validate_protocols C X = .ok Y) :
    Y = Dict.values (dedup_map X) ∧
    X.find? (fun p => p.portD < 1 || p.portD > 65535) = none ∧
    protocols_not_found C X = [] := by
  unfold validate_protocols at h
  cases hbad : X.find? (fun p => p.portD < 1 || p.portD > 65535) with
  | some p =>
    simp only [hbad] at h
    exact absurd h (fun hc => Except.noConfusion hc)
  | none =>
    simp only [hbad] at h
    by_cases hnf : (protocols_not_found C X).isEmpty = true
    · rw [if_neg (by rw [hnf]; decide)] at h
      injection h with hc
      exact ⟨hc.symm, rfl, List.isEmpty_iff.mp hnf⟩
    · rw [if_pos (by rw [Bool.eq_false_iff.mpr hnf]; decide)] at h
      exact absurd h (fun hc => Except.noConfusion hc)

/-- C7: whenever validate_protocols succeeds, the output names are the
input names in first seen order, every output entry is the last input
occurrence of its name (map semantics, last write wins), and validation is
idempotent: validating the output again succeeds with the same output. -/
theorem validate_protocols_dedup_idempotent (C : List PlatformProtocol)
    (X Y : List ProtocolData) (h : validate_protocols C X = .ok Y) :
    Y.map (fun p => p.name) = firstSeen (X.map (fun p => p.name)) ∧
    (∀ p ∈ Y, lastWith (fun q => q.name == p.name) X = some p) ∧
    validate_protocols C Y = .ok Y := by
  obtain ⟨hY, hbad, hnf⟩ := validate_protocols_ok_elim C X Y h
  have hnames : Y.map (fun p => p.name) = firstSeen (X.map (fun p => p.name)) := by
    rw [hY, dedup_map_values_names, dedup_map_keys]
  have hlast : ∀ p ∈ Y, lastWith (fun q => q.name == p.name) X = some p := by
    intro p hp
    rw [hY] at hp
    exact mem_values_dedup X p hp
  refine ⟨hnames, hlast, ?_⟩
  have hndY : (Y.map (fun p => p.name)).Nodup := by
    rw [hnames]
    exact firstSeen_nodup _
  have hmemX : ∀ p ∈ Y, p ∈ X := fun p hp =>
    (lastWith_mem _ _ _ (hlast p hp)).1
  have hbadY : Y.find? (fun p => p.portD < 1 || p.portD > 65535) = none := by
    rw [List.find?_eq_none] at hbad ⊢
    intro p hp
    exact hbad p (hmemX p hp)
  have hmapY : dedup_map Y = Y.map (fun p => (p.name, p)) :=
    dedup_map_of_nodup Y hndY
  have hnfY : protocols_not_found C Y = [] := by
    unfold protocols_not_found at hnf ⊢
    rw [List.map_eq_nil_iff] at hnf ⊢
    rw [List.filter_eq_nil_iff] at hnf ⊢
    intro q hq
    have hq2 := hnf q hq
    have hcX : Dict.contains (dedup_map X) q.name = true := by
      cases hc : Dict.contains (dedup_map X) q.name with
      | true => rfl
      | false =>
        exfalso
        apply hq2
        rw [hc]
        decide
    have hmem : q.name ∈ Y.map (fun p => p.name) := by
      rw [hnames, firstSeen_mem]
      exact (dedup_map_contains X q.name).mp hcX
    have hcY := (dedup_map_contains Y q.name).mpr hmem
    rw [hcY]
    decide
  unfold validate_protocols
  simp only [hbadY]
  rw [if_neg (by rw [hnfY]; decide)]
  rw [hmapY, values_map_pair]

/-- Witness for C7: the duplicate rdp list validates to the single last
entry, and validating the output again is the identity. -/
theorem validate_protocols_dedup_idempotent_witness :
    validate_protocols [] [⟨"rdp", some 3389⟩, ⟨"rdp", some 3390⟩] =
      .ok [⟨"rdp", some 3390⟩] ∧
    validate_protocols [] [⟨"rdp", some 3390⟩] = .ok [⟨"rdp", some 3390⟩] := by
  exact ⟨rfl, (validate_protocols_dedup_idempotent []
    [⟨"rdp", some 3389⟩, ⟨"rdp", some 3390⟩] [⟨"rdp", some 3390⟩] rfl).2.2⟩

/-- rdp1C8 is a first rdp platform entry with no flags. -/
def rdp1C8 : PlatformProtocol := ⟨"rdp", 3389, false, false, false⟩

/-- rdp2C8 is a second rdp platform entry with no flags. -/
def rdp2C8 : PlatformProtocol := ⟨"rdp", 3390, false, false, false⟩

/-- C8 counterexample: the only validator that promotes a primary entry,
the platform one, does not deduplicate: on the duplicate rdp list it
returns both entries and the promoted primary entry carries port 3389,
not 3390; the asset validator, which does deduplicate to the port 3390
entry, returns plain name and port entries carrying no primary flag at
all. -/
theorem protocols_primary_counterexample :
    platform_validate_protocols [rdp1C8, rdp2C8] =
      .ok [⟨"rdp", 3389, true, false, false⟩, ⟨"rdp", 3390, false, false, false⟩] ∧
    ([⟨"rdp", 3389, true, false, false⟩,
      ⟨"rdp", 3390, false, false, false⟩] : List PlatformProtocol).length ≠ 1 ∧
    (([⟨"rdp", 3389, true, false, false⟩,
       ⟨"rdp", 3390, false, false, false⟩] : List PlatformProtocol).filter
      (fun p => p.primary)).map (fun p => p.port) = [3389] ∧
    validate_protocols [] [⟨"rdp", some 3389⟩, ⟨"rdp", some 3390⟩] =
      .ok [⟨"rdp", some 3390⟩] := by
  exact ⟨rfl, by decide, by decide, rfl⟩

/-- C8 amended: when no entry is flagged primary, the platform protocol
validator promotes the first entry in input order to primary and leaves
the tail unchanged, but performs no deduplication; the deduplicating asset
validator keeps the last rdp entry with port 3390 and never touches a
primary flag, which its entries do not carry. -/
theorem platform_validate_promotes_first (ps : List PlatformProtocol)
    (hne : ps ≠ []) (hnp : ps.filter (fun p => p.primary) = []) :
    platform_validate_protocols ps = .ok (set_first_primary ps) ∧
    (set_first_primary ps).head?.map (fun p => p.primary) = some true ∧
    (set_first_primary ps).tail = ps.tail ∧
    validate_protocols [] [⟨"rdp", some 3389⟩, ⟨"rdp", some 3390⟩] =
      .ok [⟨"rdp", some 3390⟩] := by
  refine ⟨?_, ?_, ?_, rfl⟩
  · unfold platform_validate_protocols
    rw [if_neg (fun hc => hne (List.isEmpty_iff.mp hc))]
    rw [hnp]
    rw [if_pos (by decide)]
  · cases ps with
    | nil => exact absurd rfl hne
    | cons p ps2 => rfl
  · cases ps with
    | nil => exact absurd rfl hne
    | cons p ps2 => rfl

/-- Witness for the amended C8 on the concrete duplicate rdp list. -/
theorem platform_validate_promotes_first_witness :
    platform_validate_protocols [rdp1C8, rdp2C8] =
      .ok (set_first_primary [rdp1C8, rdp2C8]) ∧
    (set_first_primary [rdp1C8, rdp2C8]).head?.map (fun p => p.primary) =
      some true := by
  have h := platform_validate_promotes_first [rdp1C8, rdp2C8]
    (by decide) rfl
  exact ⟨h.1, h.2.1⟩

end JmsSpec
